import Mathlib

/-!
Shallow embedding of the naming / resolution kernel of the `justmyresource`
repository (`src/justmyresource/core.py` and `src/justmyresource/types.py`).

Strings are modelled as `List Char` (Python `str`), bytes as `List Nat`,
Python `dict` (insertion ordered) as an association list with in-place
update, and Python's stable `list.sort(..., reverse=True)` as a stable
insertion sort with a strict comes-before comparator.  Exceptions raised by
`_resolve_name` become an explicit error type with one constructor per
`raise` site.  The codec machinery behind `bytes.decode` is an external
dependency of `ResourceContent.text` and is passed in as a function
argument.
-/

namespace JustMyResource

abbrev Str := List Char

def lit (s : String) : Str := s.toList

/-- Python `str.lower()` (ASCII-faithful). -/
def lower (s : Str) : Str := s.map Char.toLower

/-- The single-quote character, used by the f-string diagnostics. -/
def sq : Char := Char.ofNat 39

/-- `"'" + s + "'"` as written by the `f"'{...}'"` diagnostics. -/
def quoted (s : Str) : Str := sq :: (s ++ [sq])

/-- Python `", ".join(l)`. -/
def interComma : List Str → Str
  | [] => []
  | [a] => a
  | a :: b :: rest => a ++ lit (", ") ++ interComma (b :: rest)

/-- `a` occurs as a contiguous segment of `b`. -/
def seg_in (a b : Str) : Prop := ∃ u v, b = u ++ a ++ v

/-- Association-list lookup (first match), modelling `dict.get` /
`dict[k]` on an insertion-ordered dict with unique keys. -/
def alookup {α : Type} : List (Str × α) → Str → Option α
  | [], _ => none
  | (k1, v1) :: rest, k => if k1 = k then some v1 else alookup rest k

/-- Python `k in d`. -/
def acontains {α : Type} (m : List (Str × α)) (k : Str) : Bool :=
  (alookup m k).isSome

/-- `d[k] = v`: update in place if the key exists, else append
(Python dicts keep the original insertion position on update). -/
def aset {α : Type} : List (Str × α) → Str → α → List (Str × α)
  | [], k, v => [(k, v)]
  | (k1, v1) :: rest, k, v =>
    if k1 = k then (k, v) :: rest else (k1, v1) :: aset rest k v

/-- Python `del d[k]`. -/
def aerase {α : Type} : List (Str × α) → Str → List (Str × α)
  | [], _ => []
  | (k1, v1) :: rest, k =>
    if k1 = k then rest else (k1, v1) :: aerase rest k

/-- Python `list.remove(x)` (first occurrence; modelled as a no-op when
absent, a case no theorem below reaches). -/
def removeFirst : List Str → Str → List Str
  | [], _ => []
  | a :: rest, x => if a = x then rest else a :: removeFirst rest x

/-- Stable insertion step for `stableSort`: `before a b` means `a` must
come strictly before `b`; ties keep their original relative order. -/
def sins {α : Type} (before : α → α → Bool) (a : α) : List α → List α
  | [] => [a]
  | b :: l => if before b a then b :: sins before a l else a :: b :: l

/-- A stable sort.  With comparator `key x > key y` this computes the same
list as Python's stable `sort(key=key, reverse=True)`. -/
def stableSort {α : Type} (before : α → α → Bool) (l : List α) : List α :=
  l.foldr (sins before) []

/-- Python string `<` (lexicographic by code point). -/
def strLt : Str → Str → Bool
  | [], [] => false
  | [], _ :: _ => true
  | _ :: _, [] => false
  | a :: as_, b :: bs => if a < b then true else if a = b then strLt as_ bs else false

/-- Content of a resource (`types.py:ResourceContent`). -/
structure ResourceContent where
  data : List Nat
  content_type : Str
  encoding : Option Str
  metadata : Option (List (Str × Str))
deriving DecidableEq

/-- Result of `ResourceContent.text`: one constructor per exit of the
Python property (`errBinary` and `errDecode` are the two `ValueError`
raise paths). -/
inductive TextResult
  | ok (s : Str)
  | errBinary (msg : Str)
  | errDecode
deriving DecidableEq

/-- `ResourceContent.text` (`types.py` lines 99-111).  `decode` stands for
the external codec machinery behind `bytes.decode(encoding)`; `none`
models a decoding failure (`UnicodeDecodeError`, a `ValueError`). -/
def ResourceContent.text (decode : List Nat → Str → Option Str)
    (rc : ResourceContent) : TextResult :=
  match rc.encoding with
  | none => .errBinary (lit ("Cannot decode binary resource as text (encoding is None)"))
  | some e =>
    match decode rc.data e with
    | some s => .ok s
    | none => .errDecode

/-- A resource pack instance: its priority and its finite resource store.
`get_resource` returning `none` models the pack raising `ValueError`
(resource not found). -/
structure Pack where
  priority : Int
  resources : List (Str × ResourceContent)
deriving DecidableEq

def Pack.get_resource (p : Pack) (name : Str) : Option ResourceContent :=
  alookup p.resources name

def Pack.get_priority (p : Pack) : Int := p.priority

/-- `types.py:RegisteredPack`. -/
structure RegisteredPack where
  dist_name : Str
  pack_name : Str
  pack : Pack
  aliases : List Str
deriving DecidableEq

def RegisteredPack.qualified_name (rp : RegisteredPack) : Str :=
  rp.dist_name ++ ('/') :: rp.pack_name

/-- One tuple yielded by `_get_entry_points`:
`(dist_name, pack_name, pack, aliases)`. -/
structure Entry where
  dist_name : Str
  pack_name : Str
  pack : Pack
  aliases : List Str
deriving DecidableEq

def Entry.qualified_name (e : Entry) : Str :=
  e.dist_name ++ ('/') :: e.pack_name

/-- Sort key `(x[3], x[1])` of `discover`, i.e. `(priority, pack_name)`. -/
def entryKey (e : Entry) : Int × Str := (e.pack.get_priority, e.pack_name)

/-- Python tuple comparison `(p1, n1) > (p2, n2)`. -/
def keyGtB (a b : Int × Str) : Bool :=
  if b.1 < a.1 then true else if a.1 = b.1 then strLt b.2 a.2 else false

/-- `a` sorts strictly before `b` in `discover`'s
`packs.sort(key=lambda x: (x[3], x[1]), reverse=True)`. -/
def entryBefore (a b : Entry) : Bool := keyGtB (entryKey a) (entryKey b)

/-- The mutable registry state: `_packs`, `_prefixes`, `_collisions`,
`_discovered`, `_blocklist`, `_prefix_map` of `ResourceRegistry`. -/
structure RegState where
  packs : List (Str × RegisteredPack)
  prefixes : List (Str × Str)
  collisions : List (Str × List Str)
  discovered : Bool
  blocklist : List Str
  prefix_map : List (Str × Str)
deriving DecidableEq

/-- `ResourceRegistry.__init__` with the already-merged blocklist and
prefix map (the environment-variable merge happens before the state is
built and is outside the kernel). -/
def initState (bl : List Str) (pm : List (Str × Str)) : RegState :=
  ⟨[], [], [], false, bl, pm⟩

/-- `_register_prefix` (`core.py` lines 257-322).  Returns the new state
and the list of `PrefixCollisionWarning` messages emitted. -/
def registerPfx (s : RegState) (pfx qualified_name : Str) (priority : Int)
    (description : Str) : RegState × List Str :=
  match alookup s.prefixes pfx with
  | none => ({s with prefixes := aset s.prefixes pfx qualified_name}, [])
  | some existing_qualified =>
    match alookup s.packs existing_qualified with
    | none => (s, [])
    | some existing_pack =>
      let existing_priority := existing_pack.pack.get_priority
      if existing_priority < priority then
        let w := lit ("Prefix ") ++ quoted pfx ++ lit (" collision: ") ++ description
          ++ lit (" from ") ++ quoted qualified_name ++ lit (" (priority ")
          ++ lit (toString priority) ++ lit (") overrides ") ++ quoted existing_qualified
          ++ lit (" (priority ") ++ lit (toString existing_priority)
          ++ lit ("). Use qualified name ")
          ++ quoted (existing_qualified ++ (':') :: lit ("resource"))
          ++ lit (" to access the overridden pack.")
        let s1 := {s with prefixes := aset s.prefixes pfx qualified_name}
        let s2 :=
          match alookup s1.collisions pfx with
          | none => s1
          | some lst =>
            let lst1 := removeFirst lst existing_qualified
            if lst1 = [] then {s1 with collisions := aerase s1.collisions pfx}
            else {s1 with collisions := aset s1.collisions pfx lst1}
        (s2, [w])
      else if priority = existing_priority then
        let base :=
          match alookup s.collisions pfx with
          | none => [existing_qualified]
          | some lst => lst
        let lst1 := if qualified_name ∈ base then base else base ++ [qualified_name]
        let w := lit ("Prefix ") ++ quoted pfx ++ lit (" collision: ") ++ description
          ++ lit (" from ") ++ quoted qualified_name ++ lit (" conflicts with ")
          ++ quoted existing_qualified ++ lit (" (both priority ")
          ++ lit (toString priority) ++ lit ("). ") ++ quoted existing_qualified
          ++ lit (" wins (registered first). Use qualified name ")
          ++ quoted (qualified_name ++ (':') :: lit ("resource"))
          ++ lit (" to access the other pack.")
        ({s with collisions := aset s.collisions pfx lst1}, [w])
      else
        let w := lit ("Prefix ") ++ quoted pfx ++ lit (" collision: ") ++ description
          ++ lit (" from ") ++ quoted qualified_name ++ lit (" (priority ")
          ++ lit (toString priority) ++ lit (") conflicts with ")
          ++ quoted existing_qualified ++ lit (" (priority ")
          ++ lit (toString existing_priority) ++ lit ("). ") ++ quoted existing_qualified
          ++ lit (" wins. Use qualified name ")
          ++ quoted (qualified_name ++ (':') :: lit ("resource"))
          ++ lit (" to access the other pack.")
        (s, [w])

def packNameDesc (n : Str) : Str := lit ("pack name ") ++ quoted n

def aliasDesc (a : Str) : Str := lit ("alias ") ++ quoted a

/-- The alias-registration loop of `discover` (lines 241-247). -/
def registerAliases (qualified_name : Str) (priority : Int) :
    List Str → RegState → RegState × List Str
  | [], s => (s, [])
  | a :: rest, s =>
    let r1 := registerPfx s (lower a) qualified_name priority (aliasDesc a)
    let r2 := registerAliases qualified_name priority rest r1.1
    (r2.1, r1.2 ++ r2.2)

/-- The per-entry body of `discover`'s processing loop (lines 215-247). -/
def processEntry (e : Entry) (s : RegState) : RegState × List Str :=
  let qn := e.qualified_name
  let rp : RegisteredPack := ⟨e.dist_name, e.pack_name, e.pack, e.aliases⟩
  let s1 := {s with packs := aset s.packs qn rp}
  let s2 := {s1 with prefixes := aset s1.prefixes (lower qn) qn}
  let r3 := registerPfx s2 (lower e.pack_name) qn e.pack.get_priority
    (packNameDesc e.pack_name)
  let r4 := registerAliases qn e.pack.get_priority e.aliases r3.1
  (r4.1, r3.2 ++ r4.2)

def processEntries : List Entry → RegState → RegState × List Str
  | [], s => (s, [])
  | e :: rest, s =>
    let r1 := processEntry e s
    let r2 := processEntries rest r1.1
    (r2.1, r1.2 ++ r2.2)

/-- The user prefix-map override loop of `discover` (lines 249-253). -/
def applyOverrides : List (Str × Str) → RegState → RegState
  | [], s => s
  | (al, tq) :: rest, s =>
    let s1 := if acontains s.packs tq
      then {s with prefixes := aset s.prefixes (lower al) tq}
      else s
    applyOverrides rest s1

/-- `discover` (`core.py` lines 177-255), with the adapter enumeration
passed in as `entries`.  Returns the new state and the emitted
`PrefixCollisionWarning` messages. -/
def discover (entries : List Entry) (s : RegState) : RegState × List Str :=
  if s.discovered then (s, [])
  else
    let surviving := entries.filter (fun e =>
      !(decide (e.pack_name ∈ s.blocklist) || decide (e.qualified_name ∈ s.blocklist)))
    let sorted := stableSort entryBefore surviving
    let r1 := processEntries sorted s
    let s2 := applyOverrides s.prefix_map r1.1
    ({s2 with discovered := true}, r1.2)

/-- The four `raise ValueError` sites of `_resolve_name`, carrying the
message each one builds. -/
inductive ResolveError
  | unknownQualifiedPack (msg : Str)
  | ambiguousPfx (msg : Str)
  | unknownPfx (msg : Str)
  | resourceNotFound (msg : Str)
deriving DecidableEq

/-- `name.rsplit(":", 1)` for a name containing a colon: the part before
and the part after the last colon. -/
def rsplitLast (s : Str) : Str × Str :=
  let r := s.reverse
  ((r.dropWhile (fun c => !(c = ':'))).drop 1 |>.reverse,
   (r.takeWhile (fun c => !(c = ':'))).reverse)

/-- Message of the `AmbiguousPrefix` raise (lines 367-379). -/
def ambMsg (prefix_part resource_name : Str) (qns : List Str)
    (winner : Option Str) : Str :=
  let head := lit ("Prefix ") ++ quoted prefix_part
    ++ lit (" is ambiguous (claimed by multiple packs). Use a qualified name: ")
  let alts := qns.map (fun q => quoted (q ++ (':') :: resource_name))
  match winner with
  | some w => head ++ interComma alts ++ lit (". Currently ") ++ quoted w
      ++ lit (" wins.")
  | none => head ++ interComma alts ++ lit (".")

/-- The prefixed branch of `_resolve_name` (lines 342-388), applied to the
two halves of the last-colon split. -/
def resolveWithPfx (s : RegState) (prefix_part resource_name : Str) :
    Except ResolveError (Str × Str) :=
  let prefix_lower := lower prefix_part
  if ('/') ∈ prefix_part then
    if acontains s.packs prefix_lower then .ok (prefix_lower, resource_name)
    else .error (.unknownQualifiedPack
      (lit ("Unknown qualified resource pack: ") ++ prefix_part
        ++ lit (". Available packs: ")
        ++ interComma (stableSort strLt (s.packs.map Prod.fst))))
  else
    match alookup s.collisions prefix_lower with
    | some qualified_names =>
      .error (.ambiguousPfx
        (ambMsg prefix_part resource_name qualified_names
          (alookup s.prefixes prefix_lower)))
    | none =>
      match alookup s.prefixes prefix_lower with
      | none => .error (.unknownPfx
          (lit ("Unknown resource pack prefix: ") ++ prefix_part
            ++ lit (". Available prefixes: ")
            ++ interComma (stableSort strLt (s.prefixes.map Prod.fst))))
      | some qualified_name => .ok (qualified_name, resource_name)

/-- `a` sorts strictly before `b` in the bare-name branch's
`sorted(self._packs.items(), key=lambda x: x[1].pack.get_priority(), reverse=True)`. -/
def packItemBefore (a b : Str × RegisteredPack) : Bool :=
  decide (b.2.pack.get_priority < a.2.pack.get_priority)

/-- The priority-order probe loop of the bare-name branch (lines 398-408). -/
def searchPacks (name : Str) : List (Str × RegisteredPack) →
    Except ResolveError (Str × Str)
  | [] => .error (.resourceNotFound (lit ("Resource not found: ") ++ name))
  | (qn, rp) :: rest =>
    match rp.pack.get_resource name with
    | some _ => .ok (qn, name)
    | none => searchPacks name rest

/-- `_resolve_name` (`core.py` lines 323-408). -/
def resolveName (s : RegState) (name : Str) : Except ResolveError (Str × Str) :=
  if (':') ∈ name then
    let pr := rsplitLast name
    resolveWithPfx s pr.1 pr.2
  else
    searchPacks name (stableSort packItemBefore s.packs)

instance : DecidableEq (Except ResolveError (Str × Str)) := fun x y =>
  match x, y with
  | .ok a, .ok b =>
    if h : a = b then .isTrue (h ▸ rfl) else .isFalse (fun hc => h (Except.ok.inj hc))
  | .error a, .error b =>
    if h : a = b then .isTrue (h ▸ rfl) else .isFalse (fun hc => h (Except.error.inj hc))
  | .ok _, .error _ => .isFalse (fun hc => Except.noConfusion hc)
  | .error _, .ok _ => .isFalse (fun hc => Except.noConfusion hc)

/-- Recognizer used by counterexample statements. -/
def isUnknownQualified : Except ResolveError (Str × Str) → Bool
  | .error (.unknownQualifiedPack _) => true
  | _ => false

/-- Recognizer for the ambiguous-prefix failure. -/
def isAmbiguousPfx : Except ResolveError (Str × Str) → Bool
  | .error (.ambiguousPfx _) => true
  | _ => false

/-- A binary resource value used by concrete scenarios. -/
def rcBin : ResourceContent :=
  ⟨[0], lit ("application/octet-stream"), none, none⟩

/-- Registry discovered from a single pack `acme-icons/lucide` that
contains the resource `lightbulb`. -/
def c1_state_with : RegState :=
  (discover [⟨lit ("acme-icons"), lit ("lucide"),
    ⟨100, [(lit ("lightbulb"), rcBin)]⟩, []⟩] (initState [] [])).1

/-- Same registry as `c1_state_with`, except the pack holds no resources:
the two states have identical prefix tables, collision ledgers and
pack-table keys. -/
def c1_state_without : RegState :=
  (discover [⟨lit ("acme-icons"), lit ("lucide"), ⟨100, []⟩, []⟩]
    (initState [] [])).1

/-- Two equal-priority packs `acme-icons/lucide` and `cool-icons/lucide`
discovered with the user override `lucide -> acme-icons/lucide`. -/
def c3_state : RegState :=
  (discover
    [⟨lit ("acme-icons"), lit ("lucide"), ⟨100, [(lit ("icon1"), rcBin)]⟩, []⟩,
     ⟨lit ("cool-icons"), lit ("lucide"), ⟨100, [(lit ("icon1"), rcBin)]⟩, []⟩]
    (initState [] [(lit ("lucide"), lit ("acme-icons/lucide"))])).1

/-- Registry with a pack `cool-icons/feather` containing `bulb`. -/
def c4_state_with : RegState :=
  (discover [⟨lit ("cool-icons"), lit ("feather"),
    ⟨100, [(lit ("bulb"), rcBin)]⟩, []⟩] (initState [] [])).1

/-- Registry with a pack `cool-icons/feather` containing nothing. -/
def c4_state_without : RegState :=
  (discover [⟨lit ("cool-icons"), lit ("feather"), ⟨100, []⟩, []⟩]
    (initState [] [])).1

/-- The discovery run of a single pack `acme-icons/lucide` whose alias
list repeats its own pack name. -/
def c5_run : RegState × List Str :=
  discover [⟨lit ("acme-icons"), lit ("lucide"), ⟨100, []⟩, [lit ("lucide")]⟩]
    (initState [] [])

/-- Registry with a single pack whose distribution name has an uppercase
letter. -/
def c6_stateA : RegState :=
  (discover [⟨lit ("Acme"), lit ("p"), ⟨100, []⟩, []⟩] (initState [] [])).1

/-- Registry with a single all-lowercase pack `d/p`. -/
def c6_stateB : RegState :=
  (discover [⟨lit ("d"), lit ("p"), ⟨100, []⟩, []⟩] (initState [] [])).1

/-- Two equal-priority packs `a/x` and `b/y` where `b/y` also declares
the alias `x`, so both contend for the prefix `x`. -/
def c7_state : RegState :=
  (discover
    [⟨lit ("a"), lit ("x"), ⟨100, []⟩, []⟩,
     ⟨lit ("b"), lit ("y"), ⟨100, []⟩, [lit ("x")]⟩]
    (initState [] [])).1

/-- A concrete codec for the witness of the `ResourceContent.text` claim:
decodes only `utf-8`, one character per byte. -/
def asciiDecode : List Nat → Str → Option Str := fun d e =>
  if e = lit ("utf-8") then some (d.map (fun n => Char.ofNat n)) else none

/-- Registry discovered from two packs that both declare the pack name
"lucide", from distributions d1 and d2, with no blocklist and no user
overrides. -/
def c2_state (d1 d2 : Str) (pk1 pk2 : Pack) : RegState :=
  (discover [⟨d1, lit ("lucide"), pk1, []⟩, ⟨d2, lit ("lucide"), pk2, []⟩]
    (initState [] [])).1

end JustMyResource

namespace JustMyResource

theorem takeWhile_all {α : Type} (p : α → Bool) (l l2 : List α)
    (h : ∀ a ∈ l, p a = true) :
    (l ++ l2).takeWhile p = l ++ l2.takeWhile p := by
  induction l with
  | nil => simp
  | cons a rest ih =>
    have ha : p a = true := h a (by simp)
    simp [List.takeWhile, ha]
    exact ih (fun b hb => h b (by simp [hb]))

theorem dropWhile_all {α : Type} (p : α → Bool) (l l2 : List α)
    (h : ∀ a ∈ l, p a = true) :
    (l ++ l2).dropWhile p = l2.dropWhile p := by
  induction l with
  | nil => simp
  | cons a rest ih =>
    have ha : p a = true := h a (by simp)
    simp [List.dropWhile, ha]
    exact ih (fun b hb => h b (by simp [hb]))

/-- The last-colon split of `V ++ ":" ++ x` is `(V, x)` whenever `x`
contains no colon. -/
theorem rsplitLast_append (V x : Str) (hx : (':') ∉ x) :
    rsplitLast (V ++ (':') :: x) = (V, x) := by
  have hall : ∀ a ∈ x.reverse, (!(a = ':')) = true := by
    intro a ha
    have : a ∈ x := List.mem_reverse.mp ha
    simp only [Bool.not_eq_true']
    exact decide_eq_false (fun h => hx (h ▸ this))
  have hrev : (V ++ (':') :: x).reverse = x.reverse ++ (':') :: V.reverse := by
    simp
  simp only [rsplitLast]
  rw [hrev, takeWhile_all _ _ _ hall, dropWhile_all _ _ _ hall]
  simp [List.takeWhile_cons, List.dropWhile_cons]

theorem colon_mem (V x : Str) : (':') ∈ V ++ (':') :: x := by simp

theorem lower_append (a b : Str) : lower (a ++ b) = lower a ++ lower b := by
  simp [lower]

theorem slash_mem (d n : Str) : ('/') ∈ d ++ ('/') :: n := by simp

theorem ne_of_mem_of_not_mem {a b : Str} {c : Char} (h1 : c ∈ a) (h2 : c ∉ b) :
    a ≠ b := fun h => h2 (h ▸ h1)

theorem qualified_ne_of_dist_ne {d1 d2 n : Str} (h : d1 ≠ d2) :
    d1 ++ ('/') :: n ≠ d2 ++ ('/') :: n := fun hc =>
  h (List.append_cancel_right hc)

theorem alookup_aset {α : Type} (m : List (Str × α)) (k : Str) (v : α)
    (k2 : Str) :
    alookup (aset m k v) k2 = if k = k2 then some v else alookup m k2 := by
  induction m with
  | nil => simp [aset, alookup]
  | cons p rest ih =>
    by_cases h1 : p.1 = k
    · simp [aset, h1, alookup]
      by_cases h2 : k = k2
      · simp [h2]
      · simp [h2, h1]
    · simp [aset, h1, alookup]
      by_cases h2 : p.1 = k2
      · have : ¬ k = k2 := fun hh => h1 (hh ▸ h2)
        simp [h2, this]
      · simp [h2, ih]

theorem alookup_isSome_of_mem {α : Type} {m : List (Str × α)} {k : Str}
    {v : α} (h : (k, v) ∈ m) : (alookup m k).isSome = true := by
  induction m with
  | nil => simp at h
  | cons p rest ih =>
    rcases List.mem_cons.mp h with h1 | h1
    · simp [alookup, ← h1]
    · by_cases h2 : p.1 = k
      · simp [alookup, h2]
      · simp [alookup, h2, ih h1]

theorem mem_sins {α : Type} (before : α → α → Bool) (a x : α) (l : List α) :
    x ∈ sins before a l ↔ x = a ∨ x ∈ l := by
  induction l with
  | nil => simp [sins]
  | cons b rest ih =>
    by_cases h : before b a = true
    · simp only [sins, h, if_true, List.mem_cons, ih]
      tauto
    · simp [sins, h]

theorem mem_stableSort {α : Type} (before : α → α → Bool) (x : α)
    (l : List α) : x ∈ stableSort before l ↔ x ∈ l := by
  induction l with
  | nil => simp [stableSort]
  | cons a rest ih =>
    simp only [stableSort, List.foldr] at ih ⊢
    rw [mem_sins, ih]
    simp

end JustMyResource

namespace JustMyResource

theorem strLt_cons (x y : Char) (as_ bs : Str) :
    strLt (x :: as_) (y :: bs) =
      if x < y then true else if x = y then strLt as_ bs else false := rfl

theorem strLt_irrefl (a : Str) : strLt a a = false := by
  induction a with
  | nil => rfl
  | cons c rest ih => simp [strLt_cons, ih]

theorem strLt_trans {a b c : Str} (h1 : strLt a b = true)
    (h2 : strLt b c = true) : strLt a c = true := by
  induction a generalizing b c with
  | nil =>
    cases b with
    | nil => simp [strLt] at h1
    | cons y bs =>
      cases c with
      | nil => simp [strLt] at h2
      | cons z cs => simp [strLt]
  | cons x as_ ih =>
    cases b with
    | nil => simp [strLt] at h1
    | cons y bs =>
      cases c with
      | nil => simp [strLt] at h2
      | cons z cs =>
        rcases lt_trichotomy x y with hxy | hxy | hxy
        · rcases lt_trichotomy y z with hyz | hyz | hyz
          · rw [strLt_cons, if_pos (lt_trans hxy hyz)]
          · rw [strLt_cons, if_pos (hyz ▸ hxy)]
          · rw [strLt_cons, if_neg (asymm hyz), if_neg (ne_of_gt hyz)] at h2
            exact absurd h2 (by simp)
        · subst hxy
          rw [strLt_cons, if_neg (lt_irrefl x), if_pos rfl] at h1
          rcases lt_trichotomy x z with hxz | hxz | hxz
          · rw [strLt_cons, if_pos hxz]
          · subst hxz
            rw [strLt_cons, if_neg (lt_irrefl x), if_pos rfl] at h2 ⊢
            exact ih h1 h2
          · rw [strLt_cons, if_neg (asymm hxz), if_neg (ne_of_gt hxz)] at h2
            exact absurd h2 (by simp)
        · rw [strLt_cons, if_neg (asymm hxy), if_neg (ne_of_gt hxy)] at h1
          exact absurd h1 (by simp)

theorem strLt_conn {a b : Str} (h1 : strLt a b = false)
    (h2 : strLt b a = false) : a = b := by
  induction a generalizing b with
  | nil =>
    cases b with
    | nil => rfl
    | cons y bs => simp [strLt] at h1
  | cons x as_ ih =>
    cases b with
    | nil => simp [strLt] at h2
    | cons y bs =>
      rcases lt_trichotomy x y with hxy | hxy | hxy
      · rw [strLt_cons, if_pos hxy] at h1
        exact absurd h1 (by simp)
      · subst hxy
        rw [strLt_cons, if_neg (lt_irrefl x), if_pos rfl] at h1 h2
        rw [ih h1 h2]
      · rw [strLt_cons, if_pos hxy] at h2
        exact absurd h2 (by simp)

theorem strLt_asymm {a b : Str} (h : strLt a b = true) : strLt b a = false := by
  by_cases h2 : strLt b a = true
  · have h3 := strLt_trans h h2
    rw [strLt_irrefl] at h3
    exact absurd h3 (by simp)
  · simpa using h2

theorem strLt_negtrans {a b c : Str} (h1 : strLt a b = false)
    (h2 : strLt b c = false) : strLt a c = false := by
  by_cases h : strLt a c = true
  · by_cases hba : strLt b a = true
    · have h3 := strLt_trans hba h
      rw [h3] at h2
      exact absurd h2 (by simp)
    · have hab : a = b := strLt_conn h1 (by simpa using hba)
      rw [← hab] at h2
      rw [h] at h2
      exact absurd h2 (by simp)
  · simpa using h

theorem keyGt_irrefl (k : Int × Str) : keyGtB k k = false := by
  simp [keyGtB, strLt_irrefl]

theorem keyGt_asymm {a b : Int × Str} (h : keyGtB a b = true) :
    keyGtB b a = false := by
  obtain ⟨pa, na⟩ := a
  obtain ⟨pb, nb⟩ := b
  simp only [keyGtB] at h ⊢
  rcases lt_trichotomy pa pb with hp | hp | hp
  · rw [if_neg (asymm hp), if_neg (ne_of_lt hp)] at h
    exact absurd h (by simp)
  · subst hp
    rw [if_neg (lt_irrefl pa), if_pos rfl] at h ⊢
    exact strLt_asymm h
  · rw [if_neg (asymm hp), if_neg (ne_of_lt hp)]

theorem keyGt_negtrans {a b c : Int × Str} (h1 : keyGtB b a = false)
    (h2 : keyGtB c b = false) : keyGtB c a = false := by
  obtain ⟨pa, na⟩ := a
  obtain ⟨pb, nb⟩ := b
  obtain ⟨pc, nc⟩ := c
  simp only [keyGtB] at h1 h2 ⊢
  rcases lt_trichotomy pa pb with hab | hab | hab
  · rw [if_pos hab] at h1
    exact absurd h1 (by simp)
  · subst hab
    rw [if_neg (lt_irrefl pa), if_pos rfl] at h1
    rcases lt_trichotomy pa pc with hbc | hbc | hbc
    · rw [if_pos hbc] at h2
      exact absurd h2 (by simp)
    · subst hbc
      rw [if_neg (lt_irrefl pa), if_pos rfl] at h2 ⊢
      exact strLt_negtrans h1 h2
    · rw [if_neg (asymm hbc), if_neg (ne_of_lt hbc)]
  · rcases lt_trichotomy pb pc with hbc | hbc | hbc
    · rw [if_pos hbc] at h2
      exact absurd h2 (by simp)
    · have hca : pc < pa := hbc ▸ hab
      rw [if_neg (asymm hca), if_neg (ne_of_lt hca)]
    · have hca : pc < pa := lt_trans hbc hab
      rw [if_neg (asymm hca), if_neg (ne_of_lt hca)]

end JustMyResource

namespace JustMyResource

theorem sins_perm {α : Type} (before : α → α → Bool) (a : α) (l : List α) :
    List.Perm (sins before a l) (a :: l) := by
  induction l with
  | nil => exact List.Perm.refl _
  | cons b rest ih =>
    by_cases h : before b a = true
    · have h1 : sins before a (b :: rest) = b :: sins before a rest := by
        simp [sins, h]
      rw [h1]
      exact List.Perm.trans (List.Perm.cons b ih) (List.Perm.swap a b rest)
    · have hf : before b a = false := by simpa using h
      have h1 : sins before a (b :: rest) = a :: b :: rest := by
        simp [sins, hf]
      rw [h1]

theorem stableSort_perm {α : Type} (before : α → α → Bool) (l : List α) :
    List.Perm (stableSort before l) l := by
  induction l with
  | nil => exact List.Perm.refl _
  | cons a rest ih =>
    have h1 : stableSort before (a :: rest) = sins before a (stableSort before rest) := rfl
    rw [h1]
    exact List.Perm.trans (sins_perm before a _) (List.Perm.cons a ih)

theorem sins_pairwise {α : Type} (before : α → α → Bool)
    (hasym : ∀ x y, before x y = true → before y x = false)
    (hneg : ∀ x y z, before y x = false → before z y = false → before z x = false)
    (a : α) (l : List α)
    (hl : List.Pairwise (fun x y => before y x = false) l) :
    List.Pairwise (fun x y => before y x = false) (sins before a l) := by
  induction l with
  | nil => simp [sins]
  | cons b rest ih =>
    rcases List.pairwise_cons.mp hl with ⟨hb, hrest⟩
    by_cases h : before b a = true
    · have h1 : sins before a (b :: rest) = b :: sins before a rest := by
        simp [sins, h]
      rw [h1, List.pairwise_cons]
      refine ⟨?_, ih hrest⟩
      intro z hz
      rcases (mem_sins before a z _).mp hz with hz1 | hz1
      · exact hz1 ▸ hasym b a h
      · exact hb z hz1
    · have hf : before b a = false := by simpa using h
      have h1 : sins before a (b :: rest) = a :: b :: rest := by
        simp [sins, hf]
      rw [h1, List.pairwise_cons]
      refine ⟨?_, hl⟩
      intro z hz
      rcases List.mem_cons.mp hz with hz1 | hz1
      · exact hz1 ▸ hf
      · exact hneg a b z hf (hb z hz1)

theorem stableSort_pairwise {α : Type} (before : α → α → Bool)
    (hasym : ∀ x y, before x y = true → before y x = false)
    (hneg : ∀ x y z, before y x = false → before z y = false → before z x = false)
    (l : List α) :
    List.Pairwise (fun x y => before y x = false) (stableSort before l) := by
  induction l with
  | nil => simp [stableSort]
  | cons a rest ih => exact sins_pairwise before hasym hneg a _ ih

theorem entryBefore_asymm (x y : Entry) (h : entryBefore x y = true) :
    entryBefore y x = false := keyGt_asymm h

theorem entryBefore_negtrans (x y z : Entry) (h1 : entryBefore y x = false)
    (h2 : entryBefore z y = false) : entryBefore z x = false :=
  keyGt_negtrans h1 h2

theorem acontains_aset_mono {α : Type} {m : List (Str × α)} {k2 : Str}
    (k : Str) (v : α) (h : acontains m k2 = true) :
    acontains (aset m k v) k2 = true := by
  unfold acontains at h ⊢
  rw [alookup_aset]
  by_cases hk : k = k2
  · simp [hk]
  · simp [hk, h]
  
theorem acontains_aset_self {α : Type} (m : List (Str × α)) (k : Str) (v : α) :
    acontains (aset m k v) k = true := by
  unfold acontains
  rw [alookup_aset]
  simp

/-- The table invariant of claim C9: every value of the prefix table is a
key of the pack table. -/
def InvPP (prefixes : List (Str × Str)) (packs : List (Str × RegisteredPack)) : Prop :=
  ∀ p q, alookup prefixes p = some q → acontains packs q = true

theorem invPP_aset {prefixes : List (Str × Str)}
    {packs : List (Str × RegisteredPack)} {k v : Str}
    (hInv : InvPP prefixes packs) (hv : acontains packs v = true) :
    InvPP (aset prefixes k v) packs := by
  intro p q h
  rw [alookup_aset] at h
  by_cases hk : k = p
  · simp [hk] at h
    exact h ▸ hv
  · simp [hk] at h
    exact hInv p q h

theorem registerPfx_packs (s : RegState) (pfx qn : Str) (prio : Int) (d : Str) :
    (registerPfx s pfx qn prio d).1.packs = s.packs := by
  unfold registerPfx
  split
  · rfl
  · split
    · rfl
    · dsimp only
      split
      · split
        · rfl
        · split
          · rfl
          · rfl
      · split
        · rfl
        · rfl

theorem registerPfx_prefixes_cases (s : RegState) (pfx qn : Str) (prio : Int)
    (d : Str) :
    (registerPfx s pfx qn prio d).1.prefixes = s.prefixes ∨
      (registerPfx s pfx qn prio d).1.prefixes = aset s.prefixes pfx qn := by
  unfold registerPfx
  split
  · right; rfl
  · split
    · left; rfl
    · dsimp only
      split
      · split
        · right; rfl
        · split
          · right; rfl
          · right; rfl
      · split
        · left; rfl
        · left; rfl

theorem registerPfx_inv {s : RegState} {qn : Str} (pfx : Str) (prio : Int)
    (d : Str) (hInv : InvPP s.prefixes s.packs)
    (hq : acontains s.packs qn = true) :
    InvPP (registerPfx s pfx qn prio d).1.prefixes
      (registerPfx s pfx qn prio d).1.packs := by
  rw [registerPfx_packs]
  rcases registerPfx_prefixes_cases s pfx qn prio d with h | h
  · rw [h]; exact hInv
  · rw [h]; exact invPP_aset hInv hq

theorem registerAliases_packs (qn : Str) (prio : Int) (al : List Str)
    (s : RegState) : (registerAliases qn prio al s).1.packs = s.packs := by
  induction al generalizing s with
  | nil => rfl
  | cons a rest ih =>
    simp only [registerAliases]
    rw [ih, registerPfx_packs]

theorem registerAliases_inv {qn : Str} {prio : Int} {al : List Str}
    {s : RegState} (hInv : InvPP s.prefixes s.packs)
    (hq : acontains s.packs qn = true) :
    InvPP (registerAliases qn prio al s).1.prefixes
      (registerAliases qn prio al s).1.packs := by
  induction al generalizing s with
  | nil => exact hInv
  | cons a rest ih =>
    simp only [registerAliases]
    apply ih
    · exact registerPfx_inv (lower a) prio (aliasDesc a) hInv hq
    · rw [registerPfx_packs]
      exact hq

theorem processEntry_inv {e : Entry} {s : RegState}
    (hInv : InvPP s.prefixes s.packs) :
    InvPP (processEntry e s).1.prefixes (processEntry e s).1.packs := by
  simp only [processEntry]
  apply registerAliases_inv
  · apply registerPfx_inv
    · intro p q h
      rw [alookup_aset] at h
      by_cases hk : lower e.qualified_name = p
      · simp [hk] at h
        subst h
        exact acontains_aset_self _ _ _
      · simp [hk] at h
        exact acontains_aset_mono _ _ (hInv p q h)
    · exact acontains_aset_self _ _ _
  · rw [registerPfx_packs]
    exact acontains_aset_self _ _ _

theorem processEntries_inv {l : List Entry} {s : RegState}
    (hInv : InvPP s.prefixes s.packs) :
    InvPP (processEntries l s).1.prefixes (processEntries l s).1.packs := by
  induction l generalizing s with
  | nil => exact hInv
  | cons e rest ih =>
    simp only [processEntries]
    exact ih (processEntry_inv hInv)

theorem applyOverrides_packs (pm : List (Str × Str)) (s : RegState) :
    (applyOverrides pm s).packs = s.packs := by
  induction pm generalizing s with
  | nil => rfl
  | cons p rest ih =>
    simp only [applyOverrides]
    by_cases h : acontains s.packs p.2 = true
    · simp [h, ih]
    · simp only [Bool.not_eq_true] at h
      simp [h, ih]

theorem applyOverrides_inv {pm : List (Str × Str)} {s : RegState}
    (hInv : InvPP s.prefixes s.packs) :
    InvPP (applyOverrides pm s).prefixes (applyOverrides pm s).packs := by
  induction pm generalizing s with
  | nil => exact hInv
  | cons p rest ih =>
    simp only [applyOverrides]
    by_cases h : acontains s.packs p.2 = true
    · simp only [h, if_true]
      exact ih (invPP_aset hInv h)
    · simp only [Bool.not_eq_true] at h
      simp only [h, Bool.false_eq_true, if_false]
      exact ih hInv

theorem discover_inv (entries : List Entry) (bl : List Str)
    (pm : List (Str × Str)) :
    InvPP (discover entries (initState bl pm)).1.prefixes
      (discover entries (initState bl pm)).1.packs := by
  simp only [discover, initState]
  have h0 : InvPP ([] : List (Str × Str)) ([] : List (Str × RegisteredPack)) := by
    intro p q h
    simp [alookup] at h
  exact applyOverrides_inv (processEntries_inv h0)

theorem searchPacks_ok_mem {name q r : Str} {l : List (Str × RegisteredPack)}
    (h : searchPacks name l = .ok (q, r)) : ∃ rp, (q, rp) ∈ l := by
  induction l with
  | nil => simp [searchPacks] at h
  | cons p rest ih =>
    obtain ⟨qn, rp⟩ := p
    simp only [searchPacks] at h
    cases hg : rp.pack.get_resource name with
    | some rc =>
      rw [hg] at h
      simp only [Except.ok.injEq, Prod.mk.injEq] at h
      exact ⟨rp, by simp [h.1]⟩
    | none =>
      rw [hg] at h
      rcases ih h with ⟨rp2, hm⟩
      exact ⟨rp2, by simp [hm]⟩

theorem resolveName_ok_contains {s : RegState} {name q r : Str}
    (hInv : InvPP s.prefixes s.packs)
    (h : resolveName s name = .ok (q, r)) :
    acontains s.packs q = true := by
  unfold resolveName at h
  by_cases hc : (':') ∈ name
  · rw [if_pos hc] at h
    unfold resolveWithPfx at h
    by_cases hs : ('/') ∈ (rsplitLast name).1
    · rw [if_pos hs] at h
      by_cases hm : acontains s.packs (lower (rsplitLast name).1) = true
      · rw [if_pos hm] at h
        simp only [Except.ok.injEq, Prod.mk.injEq] at h
        exact h.1 ▸ hm
      · rw [if_neg hm] at h
        simp at h
    · rw [if_neg hs] at h
      cases hcol : alookup s.collisions (lower (rsplitLast name).1) with
      | some lst =>
        rw [hcol] at h
        simp at h
      | none =>
        rw [hcol] at h
        cases hpf : alookup s.prefixes (lower (rsplitLast name).1) with
        | none =>
          rw [hpf] at h
          simp at h
        | some qn =>
          rw [hpf] at h
          simp only [Except.ok.injEq, Prod.mk.injEq] at h
          exact h.1 ▸ hInv _ _ hpf
  · rw [if_neg hc] at h
    rcases searchPacks_ok_mem h with ⟨rp, hm⟩
    have hm2 : (q, rp) ∈ s.packs := (mem_stableSort _ _ _).mp hm
    exact alookup_isSome_of_mem hm2

end JustMyResource

namespace JustMyResource

/-- For a name of the form `V ++ ":" ++ x` with no colon in `x`, the
last-colon split feeds `(V, x)` into the prefixed branch. -/
theorem resolveName_append_colon (s : RegState) (V x : Str) (hx : (':') ∉ x) :
    resolveName s (V ++ (':') :: x) = resolveWithPfx s V x := by
  unfold resolveName
  rw [if_pos (colon_mem V x)]
  rw [rsplitLast_append V x hx]

/-- C8: discover() is idempotent: after any call the discovered flag is
set, and a second call — whatever the adapter would now enumerate —
returns the state unchanged and performs no registration and emits no
warning. -/
theorem c8_discover_idempotent (e1 e2 : List Entry) (s : RegState) :
    (discover e1 s).1.discovered = true ∧
      discover e2 (discover e1 s).1 = ((discover e1 s).1, []) := by
  have hd : (discover e1 s).1.discovered = true := by
    unfold discover
    split
    · next h => exact h
    · rfl
  refine ⟨hd, ?_⟩
  generalize hX : (discover e1 s).1 = X at hd ⊢
  unfold discover
  rw [if_pos hd]

/-- C10: ResourceContent.text raises ValueError on binary content
(encoding is None) and returns exactly the decoded data when the
encoding is set and the bytes decode under it, for every codec. -/
theorem c10_text (decode : List Nat → Str → Option Str)
    (rc : ResourceContent) :
    (rc.encoding = none →
      ResourceContent.text decode rc =
        .errBinary (lit ("Cannot decode binary resource as text (encoding is None)"))) ∧
    (∀ e s2, rc.encoding = some e → decode rc.data e = some s2 →
      ResourceContent.text decode rc = .ok s2) := by
  constructor
  · intro h
    simp [ResourceContent.text, h]
  · intro e s2 he hdec
    simp [ResourceContent.text, he, hdec]

/-- Witness for C10 at a binary value and at a decodable text value. -/
theorem c10_witness :
    ResourceContent.text asciiDecode ⟨[0], lit ("image/png"), none, none⟩ =
      .errBinary (lit ("Cannot decode binary resource as text (encoding is None)")) ∧
    ResourceContent.text asciiDecode
      ⟨[104, 105], lit ("text/plain"), some (lit ("utf-8")), none⟩ =
      .ok (lit ("hi")) :=
  ⟨(c10_text asciiDecode _).1 rfl,
   (c10_text asciiDecode _).2 (lit ("utf-8")) (lit ("hi")) rfl (by decide)⟩

/-- C9: after discover() from a fresh registry, every qualified name
stored as a value in the prefix table is a key of the pack table, and
consequently every successful resolve_name returns a qualified name whose
pack-table lookup in get_resource cannot fail. -/
theorem c9_prefix_values_registered (entries : List Entry) (bl : List Str)
    (pm : List (Str × Str)) :
    (∀ p q, alookup (discover entries (initState bl pm)).1.prefixes p = some q →
      acontains (discover entries (initState bl pm)).1.packs q = true) ∧
    (∀ name q r,
      resolveName (discover entries (initState bl pm)).1 name = .ok (q, r) →
      acontains (discover entries (initState bl pm)).1.packs q = true) := by
  refine ⟨discover_inv entries bl pm, ?_⟩
  intro name q r h
  exact resolveName_ok_contains (discover_inv entries bl pm) h

/-- Witness for C9 on a one-pack registry: the short prefix points at a
registered pack. -/
theorem c9_witness :
    acontains (discover [⟨lit ("acme-icons"), lit ("lucide"), ⟨100, []⟩, []⟩]
      (initState [] [])).1.packs (lit ("acme-icons/lucide")) = true :=
  (c9_prefix_values_registered
    [⟨lit ("acme-icons"), lit ("lucide"), ⟨100, []⟩, []⟩] [] []).1
    (lit ("lucide")) (lit ("acme-icons/lucide")) (by decide)

/-- C1 counterevidence: the claim says resolve_name never invokes a
pack's fetch operation, in particular not for names containing no colon;
but on the bare name "lightbulb" the code probes pack content: two
registries with identical prefix tables, collision ledgers and pack-table
keys — differing only in the pack's stored resources — give a success in
one and a not-found failure in the other. -/
theorem c1_bare_name_probes_packs :
    resolveName c1_state_with (lit ("lightbulb")) =
      .ok (lit ("acme-icons/lucide"), lit ("lightbulb")) ∧
    resolveName c1_state_without (lit ("lightbulb")) =
      .error (.resourceNotFound (lit ("Resource not found: lightbulb"))) := by
  decide

/-- C4 counterevidence: the claim (with the spec and the repository's own
tests) says a bare name with no default prefix configured fails with
NoDefaultPrefix without looking inside any pack; the code instead
searches the packs in priority order: it succeeds when some pack holds
the bare name, and otherwise fails with "Resource not found", never with
a no-default-prefix error. -/
theorem c4_bare_name_search :
    resolveName c4_state_with (lit ("bulb")) =
      .ok (lit ("cool-icons/feather"), lit ("bulb")) ∧
    resolveName c4_state_without (lit ("bulb")) =
      .error (.resourceNotFound (lit ("Resource not found: bulb"))) := by
  decide

/-- C5 counterevidence: the claim (with the spec and the test
test_register_prefix_same_pack_no_op) says re-registration of a prefix by
the same qualified name is a silent no-op; the code instead emits a
PrefixCollisionWarning and records a singleton collision-ledger entry
when a pack's alias equals its own pack name — so the ledger holds a
prefix claimed by only one distinct qualified name, and resolution of
that prefix then fails as ambiguous. -/
theorem c5_same_pack_alias_warns :
    alookup c5_run.1.collisions (lit ("lucide")) =
      some [lit ("acme-icons/lucide")] ∧
    c5_run.2.length = 1 ∧
    isAmbiguousPfx (resolveName c5_run.1 (lit ("lucide:icon1"))) = true := by
  decide

/-- C3 counterevidence: the claim (with the spec and the repository's
tests) says a user prefix-map override wins unconditionally over a
collision; the code applies the override to the prefix table but
_resolve_name checks the collision ledger first — which the override
never clears — so resolution of the overridden alias still fails as
ambiguous. -/
theorem c3_override_does_not_clear_ambiguity :
    alookup c3_state.prefixes (lit ("lucide")) =
      some (lit ("acme-icons/lucide")) ∧
    alookup c3_state.collisions (lit ("lucide")) =
      some [lit ("acme-icons/lucide"), lit ("cool-icons/lucide")] ∧
    isAmbiguousPfx (resolveName c3_state (lit ("lucide:icon1"))) = true := by
  decide

/-- C6 counterexample: the claim says every casing variant of a
registered qualified name resolves, and that the round trip holds for
every resource string; but a pack whose qualified name contains an
uppercase letter is unreachable even by its own exact name (the pack
table is keyed by original case while the lookup lowercases), and a
resource name containing a colon mis-splits. -/
theorem c6_counterexample :
    isUnknownQualified (resolveName c6_stateA (lit ("Acme/p:r"))) = true ∧
    isUnknownQualified (resolveName c6_stateB (lit ("d/p:a:b"))) = true := by
  decide

/-- C6 as amended: for a prefix V containing a slash and a resource
string r containing no colon, resolve_name(V ++ ":" ++ r) succeeds with
(lower V, r) exactly when the lowercased V is a pack-table key (so all
casing variants of an all-lowercase qualified name succeed), and fails
with UnknownQualifiedPack otherwise; and for a single all-lowercase pack
dist/p, both "p:r" and "dist/p:r" resolve to ("dist/p", r). -/
theorem c6_amended (s : RegState) (V r Q : Str) (pk : Pack)
    (hr : (':') ∉ r) (hV : ('/') ∈ V) (hQ : lower V = Q) :
    (acontains s.packs Q = true →
      resolveName s (V ++ (':') :: r) = .ok (Q, r)) ∧
    (acontains s.packs Q = false →
      isUnknownQualified (resolveName s (V ++ (':') :: r)) = true) ∧
    (resolveName (discover [⟨lit ("dist"), lit ("p"), pk, []⟩]
        (initState [] [])).1 (lit ("p") ++ (':') :: r) =
      .ok (lit ("dist/p"), r)) ∧
    (resolveName (discover [⟨lit ("dist"), lit ("p"), pk, []⟩]
        (initState [] [])).1 (lit ("dist/p") ++ (':') :: r) =
      .ok (lit ("dist/p"), r)) := by
  refine ⟨?_, ?_, ?_, ?_⟩
  · intro h
    rw [resolveName_append_colon s V r hr]
    simp only [resolveWithPfx, hQ]
    rw [if_pos hV, if_pos h]
  · intro h
    rw [resolveName_append_colon s V r hr]
    simp only [resolveWithPfx, hQ]
    rw [if_pos hV, if_neg (by simp [h])]
    rfl
  · rw [resolveName_append_colon _ _ _ hr]
    rfl
  · rw [resolveName_append_colon _ _ _ hr]
    rfl

/-- Witness for C6 applied to the casing variant D/P of the registered
pack d/p. -/
theorem c6_witness :
    resolveName c6_stateB (lit ("D/P") ++ (':') :: lit ("r")) =
      .ok (lit ("d/p"), lit ("r")) :=
  (c6_amended c6_stateB (lit ("D/P")) (lit ("r")) (lit ("d/p")) ⟨100, []⟩
    (by decide) (by decide) (by decide)).1 (by decide)

/-- C7 counterexample: with equal-priority packs a/x and b/y where b/y
also claims the alias x, the code processes b/y first (it sorts by
priority then pack name, descending), so the prefix x is won by b/y and
the ledger lists b/y before a/x — the winner is not the lexicographically
least qualified name a/x, contradicting the claimed
ascending-by-qualified-name processing order. -/
theorem c7_counterexample :
    alookup c7_state.collisions (lit ("x")) =
      some [lit ("b/y"), lit ("a/x")] ∧
    alookup c7_state.prefixes (lit ("x")) = some (lit ("b/y")) ∧
    strLt (lit ("a/x")) (lit ("b/y")) = true := by
  decide

/-- C7 as amended: discover() processes the surviving entries in
descending order of the key (priority, pack_name) — the sorted list is a
permutation of the survivors, pairwise ordered by that key — and entries
with equal keys keep their adapter enumeration order, so the
same-priority collision winner is the first claimant in this processing
order, not the lexicographically least qualified name. -/
theorem c7_amended :
    (∀ l : List Entry,
      List.Perm (stableSort entryBefore l) l ∧
      List.Pairwise (fun a b => entryBefore b a = false)
        (stableSort entryBefore l)) ∧
    (∀ a b : Entry, entryKey a = entryKey b →
      stableSort entryBefore [a, b] = [a, b]) := by
  constructor
  · intro l
    exact ⟨stableSort_perm _ l,
      stableSort_pairwise _ entryBefore_asymm entryBefore_negtrans l⟩
  · intro a b hk
    have hf : entryBefore b a = false := by
      unfold entryBefore
      rw [hk]
      exact keyGt_irrefl _
    simp [stableSort, sins, hf]

/-- Witness for C7 on two entries with equal keys: the tie keeps the
enumeration order. -/
theorem c7_witness :
    stableSort entryBefore
      [⟨lit ("a"), lit ("p"), ⟨100, []⟩, []⟩,
       ⟨lit ("b"), lit ("p"), ⟨100, []⟩, []⟩] =
      [⟨lit ("a"), lit ("p"), ⟨100, []⟩, []⟩,
       ⟨lit ("b"), lit ("p"), ⟨100, []⟩, []⟩] :=
  c7_amended.2 _ _ (by decide)

end JustMyResource

namespace JustMyResource

/-- C2: two packs from distinct (lowercase) distributions d1 and d2, of
equal priority, both declaring pack_name "lucide": after discover() the
collision ledger maps "lucide" to both qualified names; resolving
"lucide:x" fails with the AmbiguousPrefix error whose message lists each
contending qualified name as a fully-qualified quoted alternative; and
resolving via either pack's qualified name still succeeds. -/
theorem c2_collision_detection (d1 d2 x : Str) (pk1 pk2 : Pack)
    (h1 : lower d1 = d1) (h2 : lower d2 = d2) (hne : d1 ≠ d2)
    (hx : (':') ∉ x) (hp : pk1.get_priority = pk2.get_priority) :
    alookup (c2_state d1 d2 pk1 pk2).collisions (lit ("lucide")) =
      some [d1 ++ ('/') :: lit ("lucide"), d2 ++ ('/') :: lit ("lucide")] ∧
    resolveName (c2_state d1 d2 pk1 pk2) (lit ("lucide") ++ (':') :: x) =
      .error (.ambiguousPfx (ambMsg (lit ("lucide")) x
        [d1 ++ ('/') :: lit ("lucide"), d2 ++ ('/') :: lit ("lucide")]
        (some (d1 ++ ('/') :: lit ("lucide"))))) ∧
    seg_in (quoted ((d1 ++ ('/') :: lit ("lucide")) ++ (':') :: x))
      (ambMsg (lit ("lucide")) x
        [d1 ++ ('/') :: lit ("lucide"), d2 ++ ('/') :: lit ("lucide")]
        (some (d1 ++ ('/') :: lit ("lucide")))) ∧
    seg_in (quoted ((d2 ++ ('/') :: lit ("lucide")) ++ (':') :: x))
      (ambMsg (lit ("lucide")) x
        [d1 ++ ('/') :: lit ("lucide"), d2 ++ ('/') :: lit ("lucide")]
        (some (d1 ++ ('/') :: lit ("lucide")))) ∧
    resolveName (c2_state d1 d2 pk1 pk2) ((d1 ++ ('/') :: lit ("lucide")) ++ (':') :: x) =
      .ok (d1 ++ ('/') :: lit ("lucide"), x) ∧
    resolveName (c2_state d1 d2 pk1 pk2) ((d2 ++ ('/') :: lit ("lucide")) ++ (':') :: x) =
      .ok (d2 ++ ('/') :: lit ("lucide"), x) := by
  have hll : lower (lit ("lucide")) = lit ("lucide") := by decide
  have hlq1 : lower (d1 ++ ('/') :: lit ("lucide")) = d1 ++ ('/') :: lit ("lucide") := by
    rw [lower_append, h1]
    rfl
  have hlq2 : lower (d2 ++ ('/') :: lit ("lucide")) = d2 ++ ('/') :: lit ("lucide") := by
    rw [lower_append, h2]
    rfl
  have hne1 : ¬ (d1 ++ ('/') :: lit ("lucide") = lit ("lucide")) :=
    ne_of_mem_of_not_mem (slash_mem d1 (lit ("lucide"))) (by decide)
  have hne2 : ¬ (d2 ++ ('/') :: lit ("lucide") = lit ("lucide")) :=
    ne_of_mem_of_not_mem (slash_mem d2 (lit ("lucide"))) (by decide)
  have hne12 : ¬ (d1 ++ ('/') :: lit ("lucide") = d2 ++ ('/') :: lit ("lucide")) :=
    qualified_ne_of_dist_ne hne
  have hne21 : ¬ (d2 ++ ('/') :: lit ("lucide") = d1 ++ ('/') :: lit ("lucide")) :=
    qualified_ne_of_dist_ne (Ne.symm hne)
  have hnel2 : ¬ (lit ("lucide") = d2 ++ ('/') :: lit ("lucide")) :=
    Ne.symm (ne_of_mem_of_not_mem (slash_mem d2 (lit ("lucide"))) (by decide))
  have hpp : pk1.priority = pk2.priority := hp
  have hp1 : (processEntry ⟨d1, lit ("lucide"), pk1, []⟩ (initState [] [])).1 =
      ⟨[(d1 ++ ('/') :: lit ("lucide"), ⟨d1, lit ("lucide"), pk1, []⟩)],
       [(d1 ++ ('/') :: lit ("lucide"), d1 ++ ('/') :: lit ("lucide")),
        (lit ("lucide"), d1 ++ ('/') :: lit ("lucide"))],
       [], false, [], []⟩ := by
    simp [processEntry, registerAliases, registerPfx, aset, alookup, initState,
      Entry.qualified_name, hlq1, hne1, hll]
  have hp2 : (processEntry ⟨d2, lit ("lucide"), pk2, []⟩
      ⟨[(d1 ++ ('/') :: lit ("lucide"), ⟨d1, lit ("lucide"), pk1, []⟩)],
       [(d1 ++ ('/') :: lit ("lucide"), d1 ++ ('/') :: lit ("lucide")),
        (lit ("lucide"), d1 ++ ('/') :: lit ("lucide"))],
       [], false, [], []⟩).1 =
      ⟨[(d1 ++ ('/') :: lit ("lucide"), ⟨d1, lit ("lucide"), pk1, []⟩),
        (d2 ++ ('/') :: lit ("lucide"), ⟨d2, lit ("lucide"), pk2, []⟩)],
       [(d1 ++ ('/') :: lit ("lucide"), d1 ++ ('/') :: lit ("lucide")),
        (lit ("lucide"), d1 ++ ('/') :: lit ("lucide")),
        (d2 ++ ('/') :: lit ("lucide"), d2 ++ ('/') :: lit ("lucide"))],
       [(lit ("lucide"), [d1 ++ ('/') :: lit ("lucide"), d2 ++ ('/') :: lit ("lucide")])],
       false, [], []⟩ := by
    simp [processEntry, registerAliases, registerPfx, aset, alookup, initState,
      Entry.qualified_name, hlq2, hll, hne1, hne12, hne21, hnel2, hpp,
      Pack.get_priority, lt_self_iff_false]
  have hbef : entryBefore ⟨d2, lit ("lucide"), pk2, []⟩ ⟨d1, lit ("lucide"), pk1, []⟩ = false := by
    unfold entryBefore
    have hk : entryKey ⟨d2, lit ("lucide"), pk2, []⟩ = entryKey ⟨d1, lit ("lucide"), pk1, []⟩ := by
      simp [entryKey, Pack.get_priority, hpp]
    rw [hk]
    exact keyGt_irrefl _
  have hpe : (processEntries
      [⟨d1, lit ("lucide"), pk1, []⟩, ⟨d2, lit ("lucide"), pk2, []⟩]
      (initState [] [])).1 =
      ⟨[(d1 ++ ('/') :: lit ("lucide"), ⟨d1, lit ("lucide"), pk1, []⟩),
        (d2 ++ ('/') :: lit ("lucide"), ⟨d2, lit ("lucide"), pk2, []⟩)],
       [(d1 ++ ('/') :: lit ("lucide"), d1 ++ ('/') :: lit ("lucide")),
        (lit ("lucide"), d1 ++ ('/') :: lit ("lucide")),
        (d2 ++ ('/') :: lit ("lucide"), d2 ++ ('/') :: lit ("lucide"))],
       [(lit ("lucide"), [d1 ++ ('/') :: lit ("lucide"), d2 ++ ('/') :: lit ("lucide")])],
       false, [], []⟩ := by
    show (processEntry ⟨d2, lit ("lucide"), pk2, []⟩
      (processEntry ⟨d1, lit ("lucide"), pk1, []⟩ (initState [] [])).1).1 = _
    rw [hp1, hp2]
  have hsort : stableSort entryBefore
      [⟨d1, lit ("lucide"), pk1, []⟩, ⟨d2, lit ("lucide"), pk2, []⟩] =
      [⟨d1, lit ("lucide"), pk1, []⟩, ⟨d2, lit ("lucide"), pk2, []⟩] := by
    show sins entryBefore ⟨d1, lit ("lucide"), pk1, []⟩
      (sins entryBefore ⟨d2, lit ("lucide"), pk2, []⟩ []) = _
    simp [sins, hbef]
  have hfil : List.filter
      (fun (e : Entry) => !(decide (e.pack_name ∈ (initState [] []).blocklist) ||
        decide (e.qualified_name ∈ (initState [] []).blocklist)))
      [⟨d1, lit ("lucide"), pk1, []⟩, ⟨d2, lit ("lucide"), pk2, []⟩] =
      [⟨d1, lit ("lucide"), pk1, []⟩, ⟨d2, lit ("lucide"), pk2, []⟩] := by
    simp [initState]
  have hs : c2_state d1 d2 pk1 pk2 =
      ⟨[(d1 ++ ('/') :: lit ("lucide"), ⟨d1, lit ("lucide"), pk1, []⟩),
        (d2 ++ ('/') :: lit ("lucide"), ⟨d2, lit ("lucide"), pk2, []⟩)],
       [(d1 ++ ('/') :: lit ("lucide"), d1 ++ ('/') :: lit ("lucide")),
        (lit ("lucide"), d1 ++ ('/') :: lit ("lucide")),
        (d2 ++ ('/') :: lit ("lucide"), d2 ++ ('/') :: lit ("lucide"))],
       [(lit ("lucide"), [d1 ++ ('/') :: lit ("lucide"), d2 ++ ('/') :: lit ("lucide")])],
       true, [], []⟩ := by
    unfold c2_state discover
    rw [if_neg (show ¬ ((initState ([] : List Str)
      ([] : List (Str × Str))).discovered = true) from by decide)]
    dsimp only
    rw [hfil, hsort, hpe]
    rfl
  refine ⟨?_, ?_, ?_, ?_, ?_, ?_⟩
  · rw [hs]
    simp [alookup]
  · rw [hs, resolveName_append_colon _ _ _ hx]
    have hnsl : ¬ (('/') ∈ lit ("lucide")) := by decide
    simp [resolveWithPfx, alookup, hll, hne1, hnsl]
  · refine ⟨lit ("Prefix ") ++ quoted (lit ("lucide")) ++
      lit (" is ambiguous (claimed by multiple packs). Use a qualified name: "),
      lit (", ") ++ quoted ((d2 ++ ('/') :: lit ("lucide")) ++ (':') :: x) ++
      lit (". Currently ") ++ quoted (d1 ++ ('/') :: lit ("lucide")) ++ lit (" wins."), ?_⟩
    simp [ambMsg, interComma, quoted, List.append_assoc]
  · refine ⟨lit ("Prefix ") ++ quoted (lit ("lucide")) ++
      lit (" is ambiguous (claimed by multiple packs). Use a qualified name: ") ++
      quoted ((d1 ++ ('/') :: lit ("lucide")) ++ (':') :: x) ++ lit (", "),
      lit (". Currently ") ++ quoted (d1 ++ ('/') :: lit ("lucide")) ++ lit (" wins."), ?_⟩
    simp [ambMsg, interComma, quoted, List.append_assoc]
  · rw [hs, resolveName_append_colon _ _ _ hx]
    simp [resolveWithPfx, slash_mem d1 (lit ("lucide")), hlq1, acontains, alookup]
  · rw [hs, resolveName_append_colon _ _ _ hx]
    simp [resolveWithPfx, slash_mem d2 (lit ("lucide")), hlq2, acontains, alookup,
      hne21, hne]


/-- Witness for C2 at the spec's concrete scenario: packs
acme-icons/lucide and cool-icons/lucide, resource icon1. -/
theorem c2_witness :
    alookup (c2_state (lit ("acme-icons")) (lit ("cool-icons")) ⟨100, []⟩
        ⟨100, []⟩).collisions (lit ("lucide")) =
      some [lit ("acme-icons") ++ ('/') :: lit ("lucide"),
        lit ("cool-icons") ++ ('/') :: lit ("lucide")] ∧
    resolveName (c2_state (lit ("acme-icons")) (lit ("cool-icons")) ⟨100, []⟩ ⟨100, []⟩)
        ((lit ("acme-icons") ++ ('/') :: lit ("lucide")) ++ (':') :: lit ("icon1")) =
      .ok (lit ("acme-icons") ++ ('/') :: lit ("lucide"), lit ("icon1")) := by
  have h := c2_collision_detection (lit ("acme-icons")) (lit ("cool-icons"))
    (lit ("icon1")) ⟨100, []⟩ ⟨100, []⟩ (by decide) (by decide) (by decide)
    (by decide) rfl
  exact ⟨h.1, h.2.2.2.2.1⟩

end JustMyResource
